import Mathlib

/-!
Verification of the `image-to-tetris` python scripts.

Part 1: the link harvester `download_tetris_sound_effects.py`.

The harvester walks a JSON-decoded value and collects candidate URL
strings, then downloads each one.  We embed JSON-decoded python values as
the inductive `JValue`.  A python `dict` is modelled as an association
list `List (String × JValue)`: python dict keys are unique and iteration
is in insertion order, so `for key in d: ... d[key]` visits the stored
values in order, which is how the `jobj` case below iterates.

Python floats have no branch in `parse_object`: a float fails the scalar
guards (`object is None or type(object) in (bool, int)` and
`type(object) == str`) and reaches `for key in object`, which raises
`TypeError` because a float is not iterable.  Fallible evaluation is
modelled with `Option`: `none` is an uncaught python exception.  The
numeric payload of `jfloat` is carried as a rational; `parse_object`
never inspects it.
-/

inductive JValue where
  | jnull : JValue
  | jbool : Bool → JValue
  | jint : Int → JValue
  | jfloat : ℚ → JValue
  | jstr : String → JValue
  | jarr : List JValue → JValue
  | jobj : List (String × JValue) → JValue

mutual

/-- Embedding of `parse_object` (download_tetris_sound_effects.py, lines
6–21) together with its loop over a list (`jarr`) and over a dict's
values (`jobj`).  The loop `objects += parse_object(...)` accumulates
left to right and an exception raised by a recursive call propagates,
which the `Option.bind` chain reproduces. -/
def parse_object : JValue → Option (List String)
  | .jnull => some []
  | .jbool _ => some []
  | .jint _ => some []
  | .jfloat _ => none
  | .jstr s => some [s]
  | .jarr xs => parse_list xs
  | .jobj kvs => parse_entries kvs

def parse_list : List JValue → Option (List String)
  | [] => some []
  | x :: xs => do
      let a ← parse_object x
      let b ← parse_list xs
      pure (a ++ b)

def parse_entries : List (String × JValue) → Option (List String)
  | [] => some []
  | kv :: kvs => do
      let a ← parse_object kv.2
      let b ← parse_entries kvs
      pure (a ++ b)

end

mutual

/-- Modelled from the spec: the harvest the specification describes
(section 4.1 / section 8): recursive descent collecting every string, in
iteration order; scalars `null`, boolean, numeric contribute no strings;
a mapping contributes the harvests of its values only; a sequence the
harvests of its elements.  Total by construction: the spec assigns every
scalar, numeric included, the empty contribution. -/
def spec_harvest : JValue → List String
  | .jnull => []
  | .jbool _ => []
  | .jint _ => []
  | .jfloat _ => []
  | .jstr s => [s]
  | .jarr xs => spec_harvest_list xs
  | .jobj kvs => spec_harvest_entries kvs

def spec_harvest_list : List JValue → List String
  | [] => []
  | x :: xs => spec_harvest x ++ spec_harvest_list xs

def spec_harvest_entries : List (String × JValue) → List String
  | [] => []
  | kv :: kvs => spec_harvest kv.2 ++ spec_harvest_entries kvs

end

mutual

/-- The value `float_free v` holds when no non-integer number (python
float) occurs anywhere in the value. -/
def float_free : JValue → Bool
  | .jnull => true
  | .jbool _ => true
  | .jint _ => true
  | .jfloat _ => false
  | .jstr _ => true
  | .jarr xs => float_free_list xs
  | .jobj kvs => float_free_entries kvs

def float_free_list : List JValue → Bool
  | [] => true
  | x :: xs => float_free x && float_free_list xs

def float_free_entries : List (String × JValue) → Bool
  | [] => true
  | kv :: kvs => float_free kv.2 && float_free_entries kvs

end

mutual

/-- The value `string_free v` holds when no string occurs in harvestable
position: no string scalar, no string element of a sequence, no string
value of a mapping.  Mapping keys are not harvestable and are ignored. -/
def string_free : JValue → Bool
  | .jnull => true
  | .jbool _ => true
  | .jint _ => true
  | .jfloat _ => true
  | .jstr _ => false
  | .jarr xs => string_free_list xs
  | .jobj kvs => string_free_entries kvs

def string_free_list : List JValue → Bool
  | [] => true
  | x :: xs => string_free x && string_free_list xs

def string_free_entries : List (String × JValue) → Bool
  | [] => true
  | kv :: kvs => string_free kv.2 && string_free_entries kvs

end

/-- The end-to-end example manifest of the spec:
`{"a": ["http://x/1.mp3", {"b": "http://x/2.mp3"}]}`. -/
def exampleManifest : JValue :=
  .jobj [("a", .jarr [.jstr "http://x/1.mp3",
                      .jobj [("b", .jstr "http://x/2.mp3")]])]

example : parse_object exampleManifest
    = some ["http://x/1.mp3", "http://x/2.mp3"] := by decide

mutual

theorem parse_object_eq_spec : ∀ v : JValue, float_free v = true →
    parse_object v = some (spec_harvest v)
  | .jnull, _ => rfl
  | .jbool _, _ => rfl
  | .jint _, _ => rfl
  | .jfloat _, h => by simp [float_free] at h
  | .jstr _, _ => rfl
  | .jarr xs, h => by
      simp only [float_free] at h
      simpa only [parse_object, spec_harvest] using parse_list_eq_spec xs h
  | .jobj kvs, h => by
      simp only [float_free] at h
      simpa only [parse_object, spec_harvest] using parse_entries_eq_spec kvs h

theorem parse_list_eq_spec : ∀ xs : List JValue, float_free_list xs = true →
    parse_list xs = some (spec_harvest_list xs)
  | [], _ => rfl
  | x :: xs, h => by
      simp only [float_free_list, Bool.and_eq_true] at h
      simp [parse_list, spec_harvest_list,
        parse_object_eq_spec x h.1, parse_list_eq_spec xs h.2]

theorem parse_entries_eq_spec : ∀ kvs : List (String × JValue),
    float_free_entries kvs = true →
    parse_entries kvs = some (spec_harvest_entries kvs)
  | [], _ => rfl
  | kv :: kvs, h => by
      simp only [float_free_entries, Bool.and_eq_true] at h
      simp [parse_entries, spec_harvest_entries,
        parse_object_eq_spec kv.2 h.1, parse_entries_eq_spec kvs h.2]

end

mutual

theorem spec_harvest_nil_of_string_free : ∀ v : JValue, string_free v = true →
    spec_harvest v = []
  | .jnull, _ => rfl
  | .jbool _, _ => rfl
  | .jint _, _ => rfl
  | .jfloat _, _ => rfl
  | .jstr _, h => by simp [string_free] at h
  | .jarr xs, h => by
      simp only [string_free] at h
      simpa only [spec_harvest] using spec_harvest_list_nil_of_string_free xs h
  | .jobj kvs, h => by
      simp only [string_free] at h
      simpa only [spec_harvest] using spec_harvest_entries_nil_of_string_free kvs h

theorem spec_harvest_list_nil_of_string_free : ∀ xs : List JValue,
    string_free_list xs = true → spec_harvest_list xs = []
  | [], _ => rfl
  | x :: xs, h => by
      simp only [string_free_list, Bool.and_eq_true] at h
      simp [spec_harvest_list, spec_harvest_nil_of_string_free x h.1,
        spec_harvest_list_nil_of_string_free xs h.2]

theorem spec_harvest_entries_nil_of_string_free : ∀ kvs : List (String × JValue),
    string_free_entries kvs = true → spec_harvest_entries kvs = []
  | [], _ => rfl
  | kv :: kvs, h => by
      simp only [string_free_entries, Bool.and_eq_true] at h
      simp [spec_harvest_entries, spec_harvest_nil_of_string_free kv.2 h.1,
        spec_harvest_entries_nil_of_string_free kvs h.2]

end

theorem parse_entries_eq_parse_list_values : ∀ kvs : List (String × JValue),
    parse_entries kvs = parse_list (kvs.map Prod.snd)
  | [] => rfl
  | kv :: kvs => by
      simp [parse_entries, parse_list, parse_entries_eq_parse_list_values kvs]

/-- Claim C1, counterexample: a bare non-integer number is composed only of
the JSON scalar kinds the claim admits, yet `parse_object` does not return
the harvest the spec describes (the empty list): it raises `TypeError`
(modelled as `none`). -/
theorem C1_counterexample :
    parse_object (JValue.jfloat (1/2)) ≠ some (spec_harvest (JValue.jfloat (1/2))) ∧
    parse_object (JValue.jfloat (1/2)) = none := by decide

/-- Claim C1 (amended): for every nested structure composed only of maps,
sequences, strings, integers, booleans, and null — no non-integer numbers —
`parse_object` returns exactly the strings reachable by recursive descent
(into mapping values and sequence elements), in the source structure's
iteration order, as described by `spec_harvest`; the returned list has type
`List String`, so it contains no non-string values. -/
theorem C1_parse_object_matches_spec_harvest (v : JValue)
    (h : float_free v = true) :
    parse_object v = some (spec_harvest v) :=
  parse_object_eq_spec v h

/-- Claim C1, witness: the spec's end-to-end example manifest
`{"a": ["http://x/1.mp3", {"b": "http://x/2.mp3"}]}` harvests to
`["http://x/1.mp3", "http://x/2.mp3"]` in that order. -/
theorem C1_parse_object_matches_spec_harvest_witness :
    float_free exampleManifest = true ∧
    parse_object exampleManifest = some ["http://x/1.mp3", "http://x/2.mp3"] :=
  ⟨by decide,
   (C1_parse_object_matches_spec_harvest exampleManifest (by decide)).trans
     (by decide)⟩

/-- Claim C2, counterexample: the scalar numeric value `0.5` contains no
string at any depth, yet `parse_object` does not return the empty list: it
raises `TypeError` (modelled as `none`). -/
theorem C2_counterexample :
    string_free (JValue.jfloat (1/2)) = true ∧
    parse_object (JValue.jfloat (1/2)) ≠ some [] := by decide

/-- Claim C2 (amended): for every JSON-decoded value that contains no string
in harvestable position and no non-integer number at any depth — including
the scalar cases null, boolean, and integer — `parse_object` returns the
empty list. -/
theorem C2_no_strings_empty_harvest (v : JValue)
    (hf : float_free v = true) (hs : string_free v = true) :
    parse_object v = some [] := by
  rw [parse_object_eq_spec v hf, spec_harvest_nil_of_string_free v hs]

/-- Claim C2, witness: a stringless nested structure harvests to `[]`. -/
theorem C2_no_strings_empty_harvest_witness :
    parse_object (JValue.jobj [("k", .jarr [.jnull, .jint 3, .jbool true])])
      = some [] :=
  C2_no_strings_empty_harvest
    (JValue.jobj [("k", .jarr [.jnull, .jint 3, .jbool true])])
    (by decide) (by decide)

/-- Claim C6: on a mapping, `parse_object` recurses only into the mapping's
values: the result equals the harvest of the list of values, and renaming
every key leaves the result unchanged, so a string occurring as a dict key
never contributes to the harvested output. -/
theorem C6_dict_keys_not_harvested (kvs : List (String × JValue))
    (f : String → String) :
    parse_object (JValue.jobj kvs) = parse_list (kvs.map Prod.snd) ∧
    parse_object (JValue.jobj (kvs.map fun kv => (f kv.1, kv.2)))
      = parse_object (JValue.jobj kvs) := by
  constructor
  · simpa only [parse_object] using parse_entries_eq_parse_list_values kvs
  · simp only [parse_object, parse_entries_eq_parse_list_values,
      List.map_map]
    rfl

/-- Claim C10: on any input that is a non-integer number (python float),
`parse_object` raises `TypeError` (modelled as `none`) rather than
returning a list: floats fail every scalar guard and reach the
`for key in object` loop, where a float is not iterable. -/
theorem C10_float_input_raises (q : ℚ) :
    parse_object (JValue.jfloat q) = none := rfl

/-!
The download step and the harvester entry point.  The network is
modelled as an environment `get : String → Except Unit HttpResponse`
passed to each function: `Except.error` is a python exception raised by
`requests.get`, `Except.ok` a returned response.  An `HttpResponse`
carries the status code, the body bytes (`response.content`) and the
JSON-decoded body (`response.json()`).  File writes are modelled by
returning the pair (file name, bytes written): `none` means no file was
written.
-/

structure HttpResponse where
  status_code : ℕ
  content : List ℕ
  jsonBody : JValue

/-- The network environment: what `requests.get` does on each URL. -/
def HttpGet : Type := String → Except Unit HttpResponse

/-- Embedding of `url.replace('/', '_')`: with the single-character
pattern `/`, python `str.replace` substitutes an underscore for every
occurrence of the path separator character, i.e. it maps the
substitution over the characters of the string. -/
def replace_slashes (url : String) : String :=
  String.mk (url.data.map fun c => if c = '/' then '_' else c)

/-- Embedding of `try_download` (download_tetris_sound_effects.py, lines
23–30): one GET; on status 200 write the body to the file named
`url.replace('/', '_')`; swallow every exception and every non-200
status (`except: pass`), writing nothing. -/
def try_download (get : HttpGet) (url : String) : Option (String × List ℕ) :=
  match get url with
  | .error _ => none
  | .ok response =>
      if response.status_code = 200 then
        some (replace_slashes url, response.content)
      else
        none

/-- How a run of the harvester's `main` can abort. -/
inductive MainError where
  | uncaughtException : MainError
  | assertionFailure : MainError
  | typeError : MainError
  deriving DecidableEq

/-- The fixed manifest URL fetched by `main`. -/
def jstris_plus_presets : String :=
  "https://raw.githubusercontent.com/JstrisPlus/jstris-plus-assets/main/presets/soundPresets.json"

/-- Embedding of the harvester's `main` (download_tetris_sound_effects.py,
lines 32–39): fetch the manifest (an exception here is uncaught), assert
status 200 (an `AssertionError` aborts the run), harvest the decoded body
with `parse_object` (a `TypeError` from a float aborts the run), then run
`try_download` on each harvested URL, collecting the per-URL write
outcomes. -/
def main_harvester (get : HttpGet) :
    Except MainError (List (Option (String × List ℕ))) :=
  match get jstris_plus_presets with
  | .error _ => .error .uncaughtException
  | .ok response =>
      if response.status_code = 200 then
        match parse_object response.jsonBody with
        | none => .error .typeError
        | some res => .ok (res.map (try_download get))
      else
        .error .assertionFailure

/-- Claim C7: `try_download` writes a file iff the GET returns status 200;
the file is named by replacing every path separator with an underscore and
holds the response body; an exception or a non-200 status writes nothing
and propagates no error; and the outcome is a function of the single GET
on that URL (no retry). -/
theorem C7_try_download_contract (get : HttpGet) (url : String) :
    (∀ r, get url = .ok r → r.status_code = 200 →
        try_download get url = some (replace_slashes url, r.content)) ∧
    ((∃ out, try_download get url = some out) ↔
        (∃ r, get url = .ok r ∧ r.status_code = 200)) ∧
    (∀ e, get url = .error e → try_download get url = none) ∧
    (∀ r, get url = .ok r → r.status_code ≠ 200 →
        try_download get url = none) ∧
    (∀ get' : HttpGet, get' url = get url →
        try_download get' url = try_download get url) := by
  refine ⟨?_, ?_, ?_, ?_, ?_⟩
  · intro r hr h200
    simp [try_download, hr, h200]
  · constructor
    · intro ⟨out, hout⟩
      match hget : get url with
      | .error e => simp [try_download, hget] at hout
      | .ok r =>
          refine ⟨r, rfl, ?_⟩
          by_contra h200
          simp [try_download, hget, h200] at hout
    · intro ⟨r, hr, h200⟩
      exact ⟨(replace_slashes url, r.content), by simp [try_download, hr, h200]⟩
  · intro e he
    simp [try_download, he]
  · intro r hr h200
    simp [try_download, hr, h200]
  · intro get' hsame
    simp [try_download, hsame]

/-- Claim C7, witness: in an environment where the GET on
`"http://x/a.mp3"` returns status 200 with body `[7]`, the file
`"http:__x_a.mp3"` is written with body `[7]`. -/
theorem C7_try_download_contract_witness :
    try_download (fun _ => .ok ⟨200, [7], .jnull⟩) "http://x/a.mp3"
      = some ("http:__x_a.mp3", [7]) :=
  ((C7_try_download_contract (fun _ => .ok ⟨200, [7], .jnull⟩)
      "http://x/a.mp3").1 ⟨200, [7], .jnull⟩ rfl rfl).trans (by decide)

/-- Claim C8, counterexample: in an environment where the manifest GET
itself raises a network exception, the run aborts with an uncaught
exception, not an assertion failure — so the non-200 assertion is not the
harvester's only hard failure. -/
theorem C8_counterexample :
    main_harvester (fun _ => .error ()) = .error .uncaughtException ∧
    MainError.uncaughtException ≠ MainError.assertionFailure :=
  ⟨rfl, by decide⟩

/-- Claim C8 (amended): the harvester's hard failures all come from the
manifest step: an exception during the manifest fetch propagates uncaught,
a manifest response with non-200 status aborts via assertion failure, and
a non-integer number in the decoded manifest aborts via `TypeError`; when
the manifest step succeeds the run returns normally with the per-URL
outcomes, and whether the run aborts depends only on the manifest fetch —
no per-URL download failure aborts the run. -/
theorem C8_manifest_failure_semantics (get : HttpGet) :
    (∀ r, get jstris_plus_presets = .ok r → r.status_code ≠ 200 →
        main_harvester get = .error .assertionFailure) ∧
    (∀ e, get jstris_plus_presets = .error e →
        main_harvester get = .error .uncaughtException) ∧
    (∀ r, get jstris_plus_presets = .ok r → r.status_code = 200 →
        parse_object r.jsonBody = none →
        main_harvester get = .error .typeError) ∧
    (∀ r urls, get jstris_plus_presets = .ok r → r.status_code = 200 →
        parse_object r.jsonBody = some urls →
        main_harvester get = .ok (urls.map (try_download get))) ∧
    (∀ get' : HttpGet, get' jstris_plus_presets = get jstris_plus_presets →
        (main_harvester get').isOk = (main_harvester get).isOk) := by
  refine ⟨?_, ?_, ?_, ?_, ?_⟩
  · intro r hr h200
    simp [main_harvester, hr, h200]
  · intro e he
    simp [main_harvester, he]
  · intro r hr h200 hparse
    simp [main_harvester, hr, h200, hparse]
  · intro r urls hr h200 hparse
    simp [main_harvester, hr, h200, hparse]
  · intro get' hsame
    rw [main_harvester, main_harvester, hsame]
    match hget : get jstris_plus_presets with
    | .error e => rfl
    | .ok r =>
        by_cases h200 : r.status_code = 200
        · simp only [h200, if_true]
          match parse_object r.jsonBody with
          | none => rfl
          | some urls => rfl
        · simp [h200]

/-- Claim C8, witness: a manifest response with status 404 aborts the run
via the assertion failure. -/
theorem C8_manifest_failure_semantics_witness :
    main_harvester (fun _ => .ok ⟨404, [], .jnull⟩)
      = .error .assertionFailure :=
  (C8_manifest_failure_semantics (fun _ => .ok ⟨404, [], .jnull⟩)).1
    ⟨404, [], .jnull⟩ rfl (by decide)

/-!
Part 2: the spectral novelty computation and the CSV plotter in
`graph_fft.py`.

The numpy float arrays are embedded over an arbitrary linear ordered
field (instantiated at `ℝ` in the theorems); a 2-D array is a list of
rows.  In the STFT matrix `X` the rows are frequency bins and the
columns time frames, matching the numpy shape `(1 + N/2, T)`; `np.diff`
and the frame sums act along a row, `np.sum(..., axis=0)` across rows.
The transcendental library calls `np.log` and `np.abs` are passed as
function parameters `lg` and `abs2` so that the array plumbing stays
executable; the theorems instantiate them with `Real.log` and the
complex absolute value.
-/

/-- Pointwise half-wave rectification: the numpy mask assignment
`a[a < 0] = 0` sets every negative entry to zero. -/
def rect {α : Type*} [LinearOrderedField α] (v : α) : α :=
  if v < 0 then 0 else v

/-- Embedding of `np.diff(_, n=1)` on one row: first-order difference
along the time axis, length one less than the input. -/
def np_diff_row {α : Type*} [LinearOrderedField α] (row : List α) : List α :=
  (row.zip row.tail).map fun p => p.2 - p.1

/-- Embedding of `Y_diff = np.diff(Y, n=1)` on the whole matrix. -/
def np_diff {α : Type*} [LinearOrderedField α] (m : List (List α)) :
    List (List α) :=
  m.map np_diff_row

/-- Embedding of `Y_diff[Y_diff < 0] = 0`. -/
def hwr_mask {α : Type*} [LinearOrderedField α] (m : List (List α)) :
    List (List α) :=
  m.map (List.map rect)

/-- Embedding of `np.sum(_, axis=0)`: the entrywise sum of the rows.
The stft matrix always has `1 + N/2 ≥ 1` rows, so the `[]` case is never
reached by the modelled code. -/
def np_sum_axis0 {α : Type*} [LinearOrderedField α] :
    List (List α) → List α
  | [] => []
  | [row] => row
  | row :: rest => List.zipWith (fun a b => a + b) row (np_sum_axis0 rest)

/-- Embedding of `Y = np.log(1 + 100 * np.abs(X))` (graph_fft.py, line
41), with the pointwise library calls `np.log` and `np.abs` passed as
`lg` and `abs2`. -/
def log_compress {α β : Type*} [LinearOrderedField α] (lg : α → α)
    (abs2 : β → α) (X : List (List β)) : List (List α) :=
  X.map (List.map fun z => lg (1 + 100 * abs2 z))

/-- Embedding of the raw novelty computation (graph_fft.py, lines 41–45):
log-magnitude compression, first-order time difference, half-wave
rectification, sum across frequency bins, and
`np.concatenate((nov, np.array([0])))`, the trailing zero pad. -/
def spectral_novelty {α β : Type*} [LinearOrderedField α] (lg : α → α)
    (abs2 : β → α) (X : List (List β)) : List α :=
  np_sum_axis0 (hwr_mask (np_diff (log_compress lg abs2 X))) ++ [0]

/-- Embedding of `compute_local_average` (graph_fft.py, lines 7–25): at
each index `m` the python slice `x[max(m - M, 0) : min(m + M + 1, L)]`
is summed and multiplied by the fixed factor `1 / (2 * M + 1)`;
truncated subtraction makes `m - M` the python `max(m - M, 0)`. -/
def compute_local_average {α : Type*} [LinearOrderedField α] (x : List α)
    (M : ℕ) : List α :=
  (List.range x.length).map fun m =>
    (1 / (2 * (M : α) + 1)) *
      ((x.drop (m - M)).take (min (m + M + 1) x.length - (m - M))).sum

/-- The hop length `H = 256` of the STFT (graph_fft.py, line 33). -/
def H_hop : ℕ := 256

/-- The sample rate `Fs = 44100` (graph_fft.py, line 29). -/
def Fs_rate : ℚ := 44100

/-- The novelty frame rate `Fs_nov = Fs / H` (graph_fft.py, line 46). -/
def Fs_nov : ℚ := Fs_rate / (H_hop : ℚ)

/-- The averaging duration `M_sec = 0.1` (graph_fft.py, line 49). -/
def M_sec : ℚ := 1 / 10

/-- The window parameter `M = int(np.ceil(M_sec * Fs_nov))`
(graph_fft.py, line 50); `np.ceil` then `int` on a positive value is the
ceiling. -/
def M_window : ℕ := (⌈M_sec * Fs_nov⌉).toNat

/-- Embedding of the adaptive threshold step (graph_fft.py, lines 52–53):
`nov_norm = nov - local_average` followed by `nov_norm[nov_norm < 0] = 0`. -/
def nov_threshold {α : Type*} [LinearOrderedField α] (nov : List α)
    (M : ℕ) : List α :=
  (List.zipWith (fun a b => a - b) nov (compute_local_average nov M)).map rect

/-- Embedding of python's builtin `max` over a nonempty sequence; the
`[]` case (where python raises `ValueError`) returns a junk `0` and is
never reached: the novelty list always has at least one entry, the pad. -/
def python_max {α : Type*} [LinearOrderedField α] : List α → α
  | [] => 0
  | x :: xs => xs.foldl max x

/-- Embedding of the normalization step (graph_fft.py, line 54):
`nov_norm = nov_norm / max(nov_norm)`, a division of every entry by the
maximum with no guard against a zero maximum. -/
def nov_normalized {α : Type*} [LinearOrderedField α] (nov : List α)
    (M : ℕ) : List α :=
  (nov_threshold nov M).map fun v => v / python_max (nov_threshold nov M)

/-- The STFT matrix of a pure-silence waveform: the STFT is a windowed
linear transform, so every frame of the zero signal transforms to the
zero vector and the matrix is identically zero (`K` bins, `T` frames). -/
def zero_stft (K T : ℕ) : List (List ℂ) := List.replicate K (List.replicate T 0)

example : M_window = 18 := by
  rw [M_window, M_sec, Fs_nov, Fs_rate, H_hop]
  norm_num
  rw [show (⌈(2205/128 : ℚ)⌉ : ℤ) = 18 from by
    rw [Int.ceil_eq_iff]
    constructor <;> norm_num]
  rfl


theorem np_diff_row_replicate {α : Type*} [LinearOrderedField α] :
    ∀ (n : ℕ) (c : α), np_diff_row (List.replicate n c) = List.replicate (n - 1) 0
  | 0, c => rfl
  | 1, c => rfl
  | (n+2), c => by
      have ih := np_diff_row_replicate (n+1) c
      simp only [List.replicate_succ, np_diff_row, List.tail_cons,
        List.zip_cons_cons, List.map_cons, Nat.succ_sub_one] at ih ⊢
      rw [List.cons.injEq]
      exact ⟨sub_self c, ih⟩

theorem np_sum_axis0_cons_cons {α : Type*} [LinearOrderedField α]
    (a b : List α) (l : List (List α)) :
    np_sum_axis0 (a :: b :: l)
      = List.zipWith (fun x y => x + y) a (np_sum_axis0 (b :: l)) := rfl

theorem np_sum_axis0_replicate_zero {α : Type*} [LinearOrderedField α] :
    ∀ (K c : ℕ),
      np_sum_axis0 (List.replicate (K+1) (List.replicate c (0:α)))
        = List.replicate c 0
  | 0, c => rfl
  | (K+1), c => by
      have ih := np_sum_axis0_replicate_zero (α := α) K c
      rw [List.replicate_succ]
      rw [List.replicate_succ]
      rw [np_sum_axis0_cons_cons]
      rw [← List.replicate_succ]
      rw [ih]
      rw [List.zipWith_replicate, min_self, add_zero]

theorem spectral_novelty_zero_stft (K T : ℕ) (hK : 0 < K) (hT : 0 < T) :
    spectral_novelty Real.log (fun z => Complex.abs z) (zero_stft K T)
      = List.replicate T (0:ℝ) := by
  obtain ⟨K, rfl⟩ : ∃ K', K = K' + 1 := ⟨K - 1, (Nat.succ_pred_eq_of_pos hK).symm⟩
  obtain ⟨T, rfl⟩ : ∃ T', T = T' + 1 := ⟨T - 1, (Nat.succ_pred_eq_of_pos hT).symm⟩
  rw [spectral_novelty, zero_stft, log_compress, List.map_replicate,
    List.map_replicate]
  rw [show Real.log (1 + 100 * Complex.abs 0) = 0 by simp]
  rw [np_diff, List.map_replicate, np_diff_row_replicate, hwr_mask,
    List.map_replicate, List.map_replicate]
  rw [show rect (0:ℝ) = 0 from by simp [rect]]
  rw [np_sum_axis0_replicate_zero]
  simp [List.replicate_succ']

theorem compute_local_average_replicate_zero {α : Type*} [LinearOrderedField α]
    (T M : ℕ) :
    compute_local_average (List.replicate T (0:α)) M = List.replicate T 0 := by
  rw [compute_local_average, List.length_replicate]
  refine List.eq_replicate_iff.mpr ⟨by simp, ?_⟩
  intro b hb
  obtain ⟨m, _, rfl⟩ := List.mem_map.mp hb
  rw [List.drop_replicate, List.take_replicate, List.sum_replicate]
  simp

theorem nov_threshold_replicate_zero {α : Type*} [LinearOrderedField α]
    (T M : ℕ) :
    nov_threshold (List.replicate T (0:α)) M = List.replicate T 0 := by
  rw [nov_threshold, compute_local_average_replicate_zero]
  rw [show List.zipWith (fun a b : α => a - b) (List.replicate T 0)
        (List.replicate T 0) = List.replicate T 0 from by
    rw [List.zipWith_replicate, min_self, sub_zero]]
  rw [List.map_replicate]
  simp [rect]

theorem foldl_max_replicate_zero {α : Type*} [LinearOrderedField α] :
    ∀ n : ℕ, (List.replicate n (0:α)).foldl max 0 = 0
  | 0 => rfl
  | (n+1) => by
      rw [List.replicate_succ, List.foldl_cons, max_self]
      exact foldl_max_replicate_zero n

theorem python_max_replicate_zero {α : Type*} [LinearOrderedField α] (n : ℕ) :
    python_max (List.replicate (n+1) (0:α)) = 0 := by
  rw [List.replicate_succ]
  show (List.replicate n (0:α)).foldl max 0 = 0
  exact foldl_max_replicate_zero n

/-- Claim C3: on the STFT of a pure-silence waveform (the all-zero
matrix) the raw novelty sequence of lines 41–45 is identically zero, so
the thresholded novelty is identically zero and the maximum by which the
normalization on line 54 divides — with no guard — is `0`: the division
is a division by zero (`0.0 / 0.0`, a NaN, in the floating-point run). -/
theorem C3_silence_novelty_zero_divisor (K T : ℕ) (hK : 0 < K) (hT : 0 < T) :
    (∀ v ∈ spectral_novelty Real.log (fun z => Complex.abs z) (zero_stft K T),
        v = 0) ∧
    python_max (nov_threshold
        (spectral_novelty Real.log (fun z => Complex.abs z) (zero_stft K T))
        M_window) = 0 := by
  rw [spectral_novelty_zero_stft K T hK hT, nov_threshold_replicate_zero]
  obtain ⟨T, rfl⟩ : ∃ T', T = T' + 1 := ⟨T - 1, (Nat.succ_pred_eq_of_pos hT).symm⟩
  exact ⟨fun v hv => List.eq_of_mem_replicate hv, python_max_replicate_zero T⟩

/-- Claim C3, witness: the one-bin, one-frame silent spectrogram.  Its
novelty sequence is `[0]` and the normalization divisor is `0`. -/
theorem C3_silence_novelty_zero_divisor_witness :
    python_max (nov_threshold
        (spectral_novelty Real.log (fun z => Complex.abs z) (zero_stft 1 1))
        M_window) = 0 :=
  (C3_silence_novelty_zero_divisor 1 1 (by decide) (by decide)).2

theorem take_sum_eq {α : Type*} [LinearOrderedField α] :
    ∀ (x : List α) (n : ℕ), n ≤ x.length →
      (x.take n).sum = ∑ i in Finset.range n, x.getD i 0
  | _, 0, _ => by simp
  | [], n+1, h => by simp at h
  | a :: x, n+1, h => by
      rw [List.take_succ_cons, List.sum_cons,
        take_sum_eq x n (by simpa using h), Finset.sum_range_succ']
      simp only [List.getD_cons_succ, List.getD_cons_zero]
      rw [add_comm]

theorem slice_sum_eq {α : Type*} [LinearOrderedField α] (x : List α)
    (a b : ℕ) (hb : b ≤ x.length) :
    ((x.drop a).take (b - a)).sum = ∑ i in Finset.Ico a b, x.getD i 0 := by
  rw [take_sum_eq (x.drop a) (b - a) (by rw [List.length_drop]; omega),
    Finset.sum_Ico_eq_sum_range]
  refine Finset.sum_congr rfl fun i _ => ?_
  rw [List.getD_eq_getElem?_getD, List.getElem?_drop,
    ← List.getD_eq_getElem?_getD]

/-- Claim C4: `compute_local_average` preserves the length of the signal
and returns at each index `m` the sum of `x` over the boundary-truncated
centered window `[max(m - M, 0), min(m + M + 1, L))` divided by the fixed
constant `2M + 1` — the divisor stays `2M + 1` even when the window is
clipped at the boundary, under-weighting edge values. -/
theorem C4_compute_local_average_window (x : List ℝ) (M m : ℕ)
    (hm : m < x.length) :
    (compute_local_average x M).length = x.length ∧
    (compute_local_average x M).getD m 0
      = (∑ i in Finset.Ico (m - M) (min (m + M + 1) x.length), x.getD i 0)
          / (2 * (M : ℝ) + 1) := by
  constructor
  · simp [compute_local_average]
  · rw [compute_local_average]
    rw [List.getD_eq_getElem _ _ (by simpa using hm), List.getElem_map,
      List.getElem_range]
    rw [slice_sum_eq x (m - M) (min (m + M + 1) x.length) (min_le_right _ _)]
    rw [one_div_mul_eq_div]

/-- Claim C4, witness: for the signal `[1, 2, 3, 4, 5]` and `M = 1`, the
window at the left edge holds `{1, 2}` yet is divided by `3`, giving `1`
instead of the mean `3/2` of the clipped window. -/
theorem C4_compute_local_average_window_witness :
    (compute_local_average ([1, 2, 3, 4, 5] : List ℝ) 1).length = 5 ∧
    (compute_local_average ([1, 2, 3, 4, 5] : List ℝ) 1).getD 0 0 = 1 := by
  have h := C4_compute_local_average_window ([1, 2, 3, 4, 5] : List ℝ) 1 0
    (by norm_num)
  refine ⟨by simpa using h.1, ?_⟩
  rw [h.2]
  norm_num [Finset.sum_Ico_eq_sum_range, Finset.sum_range_succ]

theorem getD_mem_of_lt {γ : Type*} (l : List γ) (n : ℕ) (d : γ)
    (h : n < l.length) : l.getD n d ∈ l := by
  rw [List.getD_eq_getElem _ _ h]
  exact List.getElem_mem _

theorem getD_map_of_lt {γ δ : Type*} (f : γ → δ) (l : List γ) (t : ℕ)
    (h : t < l.length) (d : δ) (e : γ) : (l.map f).getD t d = f (l.getD t e) := by
  rw [List.getD_eq_getElem _ _ (by simpa using h), List.getElem_map,
    List.getD_eq_getElem _ _ h]

theorem np_diff_row_length {α : Type*} [LinearOrderedField α] (row : List α) :
    (np_diff_row row).length = row.length - 1 := by
  rw [np_diff_row, List.length_map, List.length_zip, List.length_tail]
  exact min_eq_right (Nat.sub_le _ _)

theorem np_diff_row_getD {α : Type*} [LinearOrderedField α] (row : List α)
    (t : ℕ) (h : t + 1 < row.length) :
    (np_diff_row row).getD t 0 = row.getD (t + 1) 0 - row.getD t 0 := by
  have hlt : t < (np_diff_row row).length := by rw [np_diff_row_length]; omega
  rw [List.getD_eq_getElem _ _ hlt]
  rw [List.getD_eq_getElem _ _ h, List.getD_eq_getElem _ _ (by omega)]
  simp only [np_diff_row, List.getElem_map, List.getElem_zip, List.getElem_tail]

theorem np_sum_axis0_length {α : Type*} [LinearOrderedField α] :
    ∀ (m : List (List α)) (c : ℕ), m ≠ [] → (∀ row ∈ m, row.length = c) →
      (np_sum_axis0 m).length = c
  | [], _, h, _ => absurd rfl h
  | [row], c, _, hlen => hlen row (by simp)
  | row :: r2 :: rest, c, _, hlen => by
      rw [np_sum_axis0_cons_cons, List.length_zipWith,
        np_sum_axis0_length (r2 :: rest) c (by simp)
          (fun r hr => hlen r (List.mem_cons_of_mem _ hr)),
        hlen row (by simp), min_self]

theorem zipWith_add_getD {α : Type*} [LinearOrderedField α]
    (l1 l2 : List α) (t : ℕ) (h1 : t < l1.length) (h2 : t < l2.length) :
    (List.zipWith (fun a b => a + b) l1 l2).getD t 0
      = l1.getD t 0 + l2.getD t 0 := by
  rw [List.getD_eq_getElem _ _ (by rw [List.length_zipWith]; exact lt_min h1 h2)]
  rw [List.getElem_zipWith, List.getD_eq_getElem _ _ h1,
    List.getD_eq_getElem _ _ h2]

theorem np_sum_axis0_getD {α : Type*} [LinearOrderedField α] :
    ∀ (m : List (List α)) (c t : ℕ), m ≠ [] → (∀ row ∈ m, row.length = c) →
      t < c → (np_sum_axis0 m).getD t 0 = (m.map fun row => row.getD t 0).sum
  | [], _, _, h, _, _ => absurd rfl h
  | [row], _, _, _, _, _ => by simp [np_sum_axis0]
  | row :: r2 :: rest, c, t, _, hlen, ht => by
      have hrest : ∀ r ∈ r2 :: rest, r.length = c :=
        fun r hr => hlen r (List.mem_cons_of_mem _ hr)
      rw [np_sum_axis0_cons_cons,
        zipWith_add_getD row _ t (by rw [hlen row (by simp)]; exact ht)
          (by rw [np_sum_axis0_length (r2 :: rest) c (by simp) hrest]; exact ht),
        np_sum_axis0_getD (r2 :: rest) c t (by simp) hrest ht]
      simp [List.map_cons, List.sum_cons]

theorem map_sum_eq_range_sum {γ α : Type*} [AddCommMonoid α] :
    ∀ (m : List γ) (f : γ → α) (d : γ),
      (m.map f).sum = ∑ k in Finset.range m.length, f (m.getD k d)
  | [], _, _ => by simp
  | x :: m, f, d => by
      rw [List.map_cons, List.sum_cons, map_sum_eq_range_sum m f d,
        List.length_cons, Finset.sum_range_succ']
      simp only [List.getD_cons_succ, List.getD_cons_zero]
      rw [add_comm]

theorem spectral_novelty_entries (lg : ℝ → ℝ) (abs2 : ℂ → ℝ)
    (X : List (List ℂ)) (T : ℕ) (hne : X ≠ [])
    (hrows : ∀ row ∈ X, row.length = T) (hT : 0 < T) :
    (spectral_novelty lg abs2 X).length = T ∧
    (∀ t, t + 1 < T → (spectral_novelty lg abs2 X).getD t 0
        = ∑ k in Finset.range X.length,
            rect (lg (1 + 100 * abs2 ((X.getD k []).getD (t + 1) 0))
              - lg (1 + 100 * abs2 ((X.getD k []).getD t 0)))) ∧
    (spectral_novelty lg abs2 X).getD (T - 1) 0 = 0 := by
  set g : ℂ → ℝ := fun z => lg (1 + 100 * abs2 z) with hg
  set F : List ℂ → List ℝ := fun row => (np_diff_row (row.map g)).map rect
    with hF
  have hm : hwr_mask (np_diff (log_compress lg abs2 X)) = X.map F := by
    rw [hwr_mask, np_diff, log_compress, List.map_map, List.map_map]
    rfl
  have hmne : X.map F ≠ [] := by simpa using hne
  have hmlen : ∀ row ∈ X.map F, row.length = T - 1 := by
    intro row hrow
    obtain ⟨row0, hrow0, rfl⟩ := List.mem_map.mp hrow
    rw [hF]
    simp only [List.length_map, np_diff_row_length]
    rw [hrows row0 hrow0]
  have hS : (np_sum_axis0 (X.map F)).length = T - 1 :=
    np_sum_axis0_length _ _ hmne hmlen
  refine ⟨?_, ?_, ?_⟩
  · rw [spectral_novelty, hm, List.length_append, hS, List.length_singleton]
    omega
  · intro t ht
    rw [spectral_novelty, hm, List.getD_append _ _ _ _ (by rw [hS]; omega),
      np_sum_axis0_getD (X.map F) (T - 1) t hmne hmlen (by omega),
      List.map_map, map_sum_eq_range_sum _ _ []]
    refine Finset.sum_congr rfl fun k hk => ?_
    have hk' : k < X.length := Finset.mem_range.mp hk
    have hrow0 : (X.getD k []).length = T := hrows _ (getD_mem_of_lt X k [] hk')
    show ((np_diff_row ((X.getD k []).map g)).map rect).getD t 0 = _
    rw [getD_map_of_lt rect _ t
        (by rw [np_diff_row_length, List.length_map, hrow0]; omega) 0 0,
      np_diff_row_getD _ t (by rw [List.length_map, hrow0]; omega),
      getD_map_of_lt g _ (t + 1) (by rw [hrow0]; omega) 0 0,
      getD_map_of_lt g _ t (by rw [hrow0]; omega) 0 0]
  · rw [spectral_novelty, hm, List.getD_append_right _ _ _ _ (le_of_eq hS), hS]
    simp

/-- Claim C5: for every STFT matrix `X` (at least one frequency bin, all
bins with the same positive number `T` of frames), the raw novelty
sequence of lines 41–45 has exactly `T` entries; entry `t < T - 1` is the
sum over frequency bins of the half-wave-rectified first-order time
difference of `log(1 + 100 * np.abs(X))`, and the final entry is the
trailing zero pad that restores the original frame count. -/
theorem C5_novelty_formula (X : List (List ℂ)) (T : ℕ) (hne : X ≠ [])
    (hrows : ∀ row ∈ X, row.length = T) (hT : 0 < T) :
    (spectral_novelty Real.log (fun z => Complex.abs z) X).length = T ∧
    (∀ t, t + 1 < T →
      (spectral_novelty Real.log (fun z => Complex.abs z) X).getD t 0
        = ∑ k in Finset.range X.length,
            rect (Real.log (1 + 100 * Complex.abs ((X.getD k []).getD (t + 1) 0))
              - Real.log (1 + 100 * Complex.abs ((X.getD k []).getD t 0)))) ∧
    (spectral_novelty Real.log (fun z => Complex.abs z) X).getD (T - 1) 0 = 0 :=
  spectral_novelty_entries Real.log (fun z => Complex.abs z) X T hne hrows hT

/-- Claim C5, witness: a one-bin, two-frame spectrogram gives a novelty
sequence of length `2` whose final entry is the zero pad. -/
theorem C5_novelty_formula_witness :
    (spectral_novelty Real.log (fun z => Complex.abs z) [[(0:ℂ), 0]]).length = 2 ∧
    (spectral_novelty Real.log (fun z => Complex.abs z) [[(0:ℂ), 0]]).getD 1 0
      = 0 := by
  have h := C5_novelty_formula [[(0:ℂ), 0]] 2 (by simp)
    (by rintro row hrow; rw [List.mem_singleton.mp hrow]; rfl) (by norm_num)
  exact ⟨h.1, by simpa using h.2.2⟩

/-!
The CSV plotter `main` in `graph_fft.py` (lines 69–88): read `fft.csv`,
group the rows by the `channel` column, and write one plot image
`fft_channel_<channel>.png` per group.  Only the file outputs are
modelled; the rendered pixels are outside the embedding.
-/

/-- One row of `fft.csv`: a channel value and the two numeric columns
`frequency` and `norm`. -/
structure Row where
  channel : String
  frequency : ℚ
  norm : ℚ
  deriving DecidableEq

/-- The group keys of `df.groupby('channel')`: pandas `groupby` iterates
the distinct channel values sorted ascending. -/
def groupKeys (rows : List Row) : List String :=
  (rows.map Row.channel).toFinset.sort (· ≤ ·)

/-- The image files written by the plotter's loop: one
`plt.savefig(f'fft_channel_{channel}.png')` per group, in group order. -/
def outputFiles (rows : List Row) : List String :=
  (groupKeys rows).map fun c => "fft_channel_" ++ c ++ ".png"

theorem output_name_injective :
    Function.Injective fun c => "fft_channel_" ++ c ++ ".png" := by
  intro a b h
  have h2 := congrArg String.data h
  simp only [String.data_append] at h2
  exact String.ext (List.append_cancel_left (List.append_cancel_right h2))

/-- Claim C9: the plotter produces exactly one output image file per
distinct channel value — as many files as distinct channels, no
duplicate file names, each named `fft_channel_<channel>.png` for exactly
the channels present — and the output is unchanged under any reordering
of the rows of the CSV. -/
theorem C9_one_file_per_channel (rows rows2 : List Row)
    (h : rows.Perm rows2) :
    (outputFiles rows).length = (rows.map Row.channel).toFinset.card ∧
    (outputFiles rows).Nodup ∧
    (∀ c : String, c ∈ rows.map Row.channel ↔
        ("fft_channel_" ++ c ++ ".png") ∈ outputFiles rows) ∧
    outputFiles rows = outputFiles rows2 := by
  refine ⟨?_, ?_, ?_, ?_⟩
  · rw [outputFiles, List.length_map, groupKeys, Finset.length_sort]
  · exact (Finset.sort_nodup _ _).map output_name_injective
  · intro c
    rw [outputFiles, groupKeys]
    constructor
    · intro hc
      exact List.mem_map_of_mem _
        ((Finset.mem_sort _).mpr (List.mem_toFinset.mpr hc))
    · intro hc
      obtain ⟨c2, hc2, heq⟩ := List.mem_map.mp hc
      obtain rfl : c2 = c := output_name_injective heq
      exact List.mem_toFinset.mp ((Finset.mem_sort _).mp hc2)
  · rw [outputFiles, outputFiles, groupKeys, groupKeys,
      List.toFinset_eq_of_perm _ _ (h.map Row.channel)]

/-- Claim C9, witness: a one-channel CSV yields exactly one file, named
after the channel. -/
theorem C9_one_file_per_channel_witness :
    (outputFiles [⟨"a", 0, 0⟩]).length = 1 ∧
    ("fft_channel_" ++ "a" ++ ".png") ∈ outputFiles [⟨"a", 0, 0⟩] := by
  have h := C9_one_file_per_channel [⟨"a", 0, 0⟩] [⟨"a", 0, 0⟩]
    (List.Perm.refl _)
  exact ⟨by rw [h.1]; simp, (h.2.2.1 "a").mp (by simp)⟩
